import Mathlib

/-!
Verification of the OpenSwiss storage layer (`internal/storage/storage.go`).

The storage layer coordinates two pieces of state under one lock:
the tournament engine (external `swisstools` library, modelled here only
through its interface: a roster of participant names, where `AddPlayer`
either appends the name or fails) and the registration queue
(`pendingPlayers : []PendingPlayer`).

Persistence (`saveTournament` / `savePendingPlayers`) and the engine add
are fallible I/O; their outcomes are injected through a `Faults` record so
theorems can quantify over every failure pattern. `none` means the step
succeeds, `some e` means it fails with error string `e`. All operations
return the resulting in-memory state together with an optional error,
mirroring the Go methods which mutate the receiver and return `error`.
-/

namespace OpenSwiss

/-- A registration-queue entry: `type PendingPlayer struct { Name, Status string }`.
`Status` ranges over "pending", "accepted", "rejected". -/
structure PendingPlayer where
  name : String
  status : String
deriving DecidableEq, Repr

/-- The in-memory state guarded by `TournamentStorage`'s lock: the engine's
roster of participant names (the projection of `st.Tournament` the storage
layer interacts with) and the pending-player queue. -/
structure TState where
  roster : List String
  pendingPlayers : List PendingPlayer
deriving DecidableEq, Repr

/-- Fault injection for the three fallible external steps inside the storage
operations: the engine's `AddPlayer`, `saveTournament`, `savePendingPlayers`. -/
structure Faults where
  engineAddErr : Option String
  saveTournamentErr : Option String
  savePendingErr : Option String
deriving DecidableEq, Repr

/-- The all-success execution: every external step succeeds. -/
def noFaults : Faults := ⟨none, none, none⟩

/-- Whitespace as trimmed by Go `strings.TrimSpace` (ASCII subset). -/
def isSpaceChar (c : Char) : Bool := c == ' ' || c == '\t' || c == '\n' || c == '\r'

/-- Go `strings.TrimSpace` on the character sequence: drop leading and
trailing whitespace. -/
def trimChars (l : List Char) : List Char :=
  ((l.dropWhile isSpaceChar).reverse.dropWhile isSpaceChar).reverse

/-- Go `unicode.ToLower` restricted to ASCII letters. -/
def lowerChar (c : Char) : Char :=
  if 'A' ≤ c ∧ c ≤ 'Z' then Char.ofNat (c.toNat + 32) else c

/-- Go `strings.ToLower(strings.TrimSpace(s))`, the normalisation used by
`AcceptPlayer`'s lookup (modelled at the character level for ASCII). -/
def normName (s : String) : String := ⟨(trimChars s.data).map lowerChar⟩

/-- Go `fmt.Sprintf("%q", s)` for names without escapes: wrap in quotes. -/
def quoteName (s : String) : String := "\"" ++ s ++ "\""

/-- `TournamentStorage.AddPendingPlayer` (submit): fail if an entry with the
same (exact) name is already pending; fail if the name is already in the
tournament roster (`GetPlayerByName`); otherwise append a fresh pending
entry and persist the queue. The in-memory append is kept even when
persistence fails (the Go code returns `savePendingPlayers()` directly). -/
def AddPendingPlayer (f : Faults) (ts : TState) (name : String) : TState × Option String :=
  if ts.pendingPlayers.any (fun pp => pp.name == name && pp.status == "pending") then
    (ts, some ("player " ++ name ++ " is already pending"))
  else if ts.roster.contains name then
    (ts, some ("player " ++ name ++ " is already in the tournament"))
  else
    ({ ts with pendingPlayers := ts.pendingPlayers ++ [⟨name, "pending"⟩] },
     f.savePendingErr)

/-- `TournamentStorage.GetPendingPlayers`: the entries currently in status
"pending", in insertion order. -/
def GetPendingPlayers (ts : TState) : List PendingPlayer :=
  ts.pendingPlayers.filter (fun pp => pp.status == "pending")

/-- The search loop at the top of `AcceptPlayer`: first entry whose
trimmed+lowercased name equals `nameLower` and whose status is "pending";
returns its index and its exact stored name (`playerIndex`, `actualName`). -/
def findPendingIdx (nameLower : String) : List PendingPlayer → Option (Nat × String)
  | [] => none
  | pp :: rest =>
    if normName pp.name == nameLower && pp.status == "pending" then
      some (0, pp.name)
    else
      match findPendingIdx nameLower rest with
      | some (i, n) => some (i + 1, n)
      | none => none

/-- In-place status update of the entry at index `i`
(`ts.pendingPlayers[playerIndex].Status = s`). -/
def setStatus : List PendingPlayer → Nat → String → List PendingPlayer
  | [], _, _ => []
  | pp :: rest, 0, s => { pp with status := s } :: rest
  | pp :: rest, i + 1, s => pp :: setStatus rest i s

/-- The not-found error of `AcceptPlayer`, listing the quoted names of the
currently pending entries when there are any. -/
def acceptNotFoundMsg (name : String) (pendingNames : List String) : String :=
  if pendingNames.length > 0 then
    "player " ++ quoteName name ++ " not found in pending list. Available: " ++
      String.intercalate ", " pendingNames
  else
    "player " ++ quoteName name ++ " not found in pending list (no pending players)"

/-- `TournamentStorage.AcceptPlayer`: find the pending entry by normalised
name (no state touched if absent); add the exact stored name to the engine
(`tournament.AddPlayer(actualName)`) and return its error on failure; only
then mark the entry "accepted"; persist engine state, reverting the status
to "pending" on failure; persist queue state, again reverting the status on
failure (the engine mutation is not undone on either save failure). -/
def AcceptPlayer (f : Faults) (ts : TState) (name : String) : TState × Option String :=
  match findPendingIdx (normName name) ts.pendingPlayers with
  | none =>
    (ts, some (acceptNotFoundMsg name ((GetPendingPlayers ts).map (fun pp => quoteName pp.name))))
  | some (playerIndex, actualName) =>
    match f.engineAddErr with
    | some e => (ts, some ("failed to add player to tournament: " ++ e))
    | none =>
      match f.saveTournamentErr with
      | some e =>
        (⟨ts.roster ++ [actualName],
          setStatus (setStatus ts.pendingPlayers playerIndex "accepted") playerIndex "pending"⟩,
         some e)
      | none =>
        match f.savePendingErr with
        | some e =>
          (⟨ts.roster ++ [actualName],
            setStatus (setStatus ts.pendingPlayers playerIndex "accepted") playerIndex "pending"⟩,
           some e)
        | none =>
          (⟨ts.roster ++ [actualName], setStatus ts.pendingPlayers playerIndex "accepted"⟩, none)

/-- The loop of `RejectPlayer`: flip the first exactly-named pending entry to
"rejected"; `none` when no such entry exists. -/
def rejectLoop (name : String) : List PendingPlayer → Option (List PendingPlayer)
  | [] => none
  | pp :: rest =>
    if pp.name == name && pp.status == "pending" then
      some ({ pp with status := "rejected" } :: rest)
    else
      (rejectLoop name rest).map (pp :: ·)

/-- `TournamentStorage.RejectPlayer`: exact-name match against pending
entries; not-found error if absent; otherwise flip the status to "rejected"
and persist the queue (no rollback on persistence failure, no engine
interaction). -/
def RejectPlayer (f : Faults) (ts : TState) (name : String) : TState × Option String :=
  match rejectLoop name ts.pendingPlayers with
  | none => (ts, some ("player " ++ name ++ " not found in pending list"))
  | some ps => ({ ts with pendingPlayers := ps }, f.savePendingErr)

/-- `TournamentStorage.UpdateTournament`: run the mutator on the engine
state; on mutator error return it without persisting; otherwise keep the
mutation and persist the engine state, surfacing (but not rolling back on)
a persistence error. -/
def UpdateTournament (f : Faults) (ts : TState)
    (fn : List String → Except String (List String)) : TState × Option String :=
  match fn ts.roster with
  | .error e => (ts, some e)
  | .ok r => ({ ts with roster := r }, f.saveTournamentErr)

/-- The guard of the HTTP registration handler `PlayerHandlers.RegisterPost`:
it rejects exactly the empty string (`if name == ""`, no trimming) before
delegating to `AddPendingPlayer`. -/
def RegisterPost (f : Faults) (ts : TState) (name : String) : TState × Option String :=
  if name == "" then (ts, some "Name is required")
  else AddPendingPlayer f ts name

/-! ### Lemmas about the search loops and the in-place status update -/

theorem findPendingIdx_cons_pos {nl : String} {pp : PendingPlayer} {rest : List PendingPlayer}
    (hc : (normName pp.name == nl && pp.status == "pending") = true) :
    findPendingIdx nl (pp :: rest) = some (0, pp.name) := by
  simp only [findPendingIdx]
  rw [if_pos hc]

theorem findPendingIdx_cons_neg {nl : String} {pp : PendingPlayer} {rest : List PendingPlayer}
    (hc : ¬(normName pp.name == nl && pp.status == "pending") = true) :
    findPendingIdx nl (pp :: rest) =
      (findPendingIdx nl rest).map (fun p => (p.1 + 1, p.2)) := by
  simp only [findPendingIdx]
  rw [if_neg hc]
  rcases findPendingIdx nl rest with _ | ⟨i, n⟩ <;> rfl

theorem findPendingIdx_none_iff {nl : String} {ps : List PendingPlayer} :
    findPendingIdx nl ps = none ↔
      ∀ pp ∈ ps, ¬(normName pp.name = nl ∧ pp.status = "pending") := by
  induction ps with
  | nil => simp [findPendingIdx]
  | cons pp rest ih =>
    by_cases hc : (normName pp.name == nl && pp.status == "pending") = true
    · rw [findPendingIdx_cons_pos hc]
      simp only [Bool.and_eq_true, beq_iff_eq] at hc
      simp [hc]
    · rw [findPendingIdx_cons_neg hc, Option.map_eq_none', ih]
      simp only [Bool.and_eq_true, beq_iff_eq] at hc
      constructor
      · intro hall q hq
        rcases List.mem_cons.mp hq with rfl | hmem
        · exact fun hx => hc ⟨hx.1, hx.2⟩
        · exact hall q hmem
      · intro hall q hq
        exact hall q (List.mem_cons_of_mem _ hq)

theorem findPendingIdx_some {nl : String} {ps : List PendingPlayer} {i : Nat} {n : String}
    (h : findPendingIdx nl ps = some (i, n)) :
    ∃ pp, ps.get? i = some pp ∧ pp.name = n ∧ pp.status = "pending" ∧
      normName pp.name = nl := by
  induction ps generalizing i n with
  | nil => simp [findPendingIdx] at h
  | cons pp rest ih =>
    by_cases hc : (normName pp.name == nl && pp.status == "pending") = true
    · rw [findPendingIdx_cons_pos hc] at h
      simp only [Option.some.injEq, Prod.mk.injEq] at h
      simp only [Bool.and_eq_true, beq_iff_eq] at hc
      exact h.1 ▸ ⟨pp, rfl, h.2, hc.2, hc.1⟩
    · rw [findPendingIdx_cons_neg hc] at h
      rcases hq : findPendingIdx nl rest with _ | ⟨j, m⟩
      · rw [hq] at h; simp at h
      · rw [hq] at h
        simp only [Option.map_some', Option.some.injEq, Prod.mk.injEq] at h
        obtain ⟨pp2, hget, hname, hstat, hnorm⟩ := ih hq
        refine ⟨pp2, ?_, h.2 ▸ hname, hstat, hnorm⟩
        have hi : i = j + 1 := h.1.symm
        subst hi
        simpa using hget

theorem findPendingIdx_append_of_none {nl : String} {ps qs : List PendingPlayer}
    (h : findPendingIdx nl ps = none) :
    findPendingIdx nl (ps ++ qs) =
      (findPendingIdx nl qs).map (fun p => (p.1 + ps.length, p.2)) := by
  induction ps with
  | nil =>
    simp only [List.nil_append, List.length_nil]
    rcases findPendingIdx nl qs with _ | ⟨i, n⟩ <;> rfl
  | cons pp rest ih =>
    by_cases hc : (normName pp.name == nl && pp.status == "pending") = true
    · rw [findPendingIdx_cons_pos hc] at h; simp at h
    · rw [findPendingIdx_cons_neg hc] at h
      rw [List.cons_append, findPendingIdx_cons_neg hc]
      rcases hr : findPendingIdx nl rest with _ | ⟨j, m⟩
      · rw [ih hr]
        rcases findPendingIdx nl qs with _ | ⟨i, n⟩
        · rfl
        · simp only [Option.map_some', List.length_cons]
          rw [Nat.add_assoc]
      · rw [hr] at h; simp at h

theorem setStatus_length {ps : List PendingPlayer} {i : Nat} {s : String} :
    (setStatus ps i s).length = ps.length := by
  induction ps generalizing i with
  | nil => rfl
  | cons pp rest ih =>
    cases i with
    | zero => rfl
    | succ j => simp [setStatus, ih]

theorem setStatus_get_self {ps : List PendingPlayer} {i : Nat} {pp : PendingPlayer} {s : String}
    (h : ps.get? i = some pp) :
    (setStatus ps i s).get? i = some { pp with status := s } := by
  induction ps generalizing i with
  | nil => simp at h
  | cons q rest ih =>
    cases i with
    | zero => simp at h; simp [setStatus, h]
    | succ j =>
      simp only [List.get?_cons_succ] at h
      simpa [setStatus] using ih h

theorem setStatus_get_other {ps : List PendingPlayer} {i j : Nat} {s : String}
    (h : j ≠ i) :
    (setStatus ps i s).get? j = ps.get? j := by
  induction ps generalizing i j with
  | nil => rfl
  | cons q rest ih =>
    cases i with
    | zero =>
      cases j with
      | zero => exact absurd rfl h
      | succ k => rfl
    | succ i' =>
      cases j with
      | zero => rfl
      | succ k =>
        simpa [setStatus] using ih (fun hk => h (by omega))

theorem setStatus_setStatus {ps : List PendingPlayer} {i : Nat} {s1 s2 : String} :
    setStatus (setStatus ps i s1) i s2 = setStatus ps i s2 := by
  induction ps generalizing i with
  | nil => rfl
  | cons q rest ih =>
    cases i with
    | zero => rfl
    | succ j => simp [setStatus, ih]

theorem setStatus_eq_self {ps : List PendingPlayer} {i : Nat} {pp : PendingPlayer} {s : String}
    (h : ps.get? i = some pp) (hs : pp.status = s) :
    setStatus ps i s = ps := by
  induction ps generalizing i with
  | nil => rfl
  | cons q rest ih =>
    cases i with
    | zero =>
      simp only [List.get?_cons_zero, Option.some.injEq] at h
      subst h
      simp [setStatus, ← hs]
    | succ j =>
      simp only [List.get?_cons_succ] at h
      simp [setStatus, ih h]

theorem countP_setStatus_of_pending {ps : List PendingPlayer} {i : Nat} {pp : PendingPlayer}
    (h : ps.get? i = some pp) (hp : pp.status = "pending") :
    (setStatus ps i "accepted").countP (fun q => q.status == "pending") + 1
      = ps.countP (fun q => q.status == "pending") := by
  induction ps generalizing i with
  | nil => simp at h
  | cons q rest ih =>
    cases i with
    | zero =>
      simp only [List.get?_cons_zero, Option.some.injEq] at h
      subst h
      simp [setStatus, List.countP_cons, hp]
    | succ j =>
      simp only [List.get?_cons_succ] at h
      simp only [setStatus, List.countP_cons]
      have := ih h
      omega

theorem rejectLoop_cons_pos {name : String} {pp : PendingPlayer} {rest : List PendingPlayer}
    (hc : (pp.name == name && pp.status == "pending") = true) :
    rejectLoop name (pp :: rest) = some ({ pp with status := "rejected" } :: rest) := by
  simp only [rejectLoop]
  rw [if_pos hc]

theorem rejectLoop_cons_neg {name : String} {pp : PendingPlayer} {rest : List PendingPlayer}
    (hc : ¬(pp.name == name && pp.status == "pending") = true) :
    rejectLoop name (pp :: rest) = (rejectLoop name rest).map (pp :: ·) := by
  simp only [rejectLoop]
  rw [if_neg hc]

theorem rejectLoop_none_iff {name : String} {ps : List PendingPlayer} :
    rejectLoop name ps = none ↔
      ∀ pp ∈ ps, ¬(pp.name = name ∧ pp.status = "pending") := by
  induction ps with
  | nil => simp [rejectLoop]
  | cons pp rest ih =>
    by_cases hc : (pp.name == name && pp.status == "pending") = true
    · rw [rejectLoop_cons_pos hc]
      simp only [Bool.and_eq_true, beq_iff_eq] at hc
      simp [hc]
    · rw [rejectLoop_cons_neg hc, Option.map_eq_none', ih]
      simp only [Bool.and_eq_true, beq_iff_eq] at hc
      constructor
      · intro hall q hq
        rcases List.mem_cons.mp hq with rfl | hmem
        · exact fun hx => hc ⟨hx.1, hx.2⟩
        · exact hall q hmem
      · intro hall q hq
        exact hall q (List.mem_cons_of_mem _ hq)

theorem rejectLoop_some {name : String} {ps ps2 : List PendingPlayer}
    (h : rejectLoop name ps = some ps2) :
    ∃ i pp, ps.get? i = some pp ∧ pp.name = name ∧ pp.status = "pending" ∧
      ps2 = setStatus ps i "rejected" := by
  induction ps generalizing ps2 with
  | nil => simp [rejectLoop] at h
  | cons pp rest ih =>
    by_cases hc : (pp.name == name && pp.status == "pending") = true
    · rw [rejectLoop_cons_pos hc] at h
      simp only [Option.some.injEq] at h
      simp only [Bool.and_eq_true, beq_iff_eq] at hc
      exact ⟨0, pp, rfl, hc.1, hc.2, h.symm⟩
    · rw [rejectLoop_cons_neg hc] at h
      rw [Option.map_eq_some'] at h
      obtain ⟨qs, hq, rfl⟩ := h
      obtain ⟨i, pp2, hget, hname, hstat, rfl⟩ := ih hq
      exact ⟨i + 1, pp2, by simpa using hget, hname, hstat, rfl⟩

/-! ### Step lemmas unfolding each operation along its control-flow paths -/

theorem contains_iff_mem {l : List String} {a : String} : l.contains a = true ↔ a ∈ l :=
  List.elem_iff

theorem pendingDup_iff {ps : List PendingPlayer} {name : String} :
    ps.any (fun pp => pp.name == name && pp.status == "pending") = true ↔
      ∃ pp ∈ ps, pp.name = name ∧ pp.status = "pending" := by
  simp [List.any_eq_true]

theorem addPending_already {f : Faults} {ts : TState} {name : String}
    (h : ∃ pp ∈ ts.pendingPlayers, pp.name = name ∧ pp.status = "pending") :
    AddPendingPlayer f ts name = (ts, some ("player " ++ name ++ " is already pending")) := by
  unfold AddPendingPlayer
  rw [if_pos (pendingDup_iff.mpr h)]

theorem addPending_active {f : Faults} {ts : TState} {name : String}
    (h1 : ¬∃ pp ∈ ts.pendingPlayers, pp.name = name ∧ pp.status = "pending")
    (h2 : name ∈ ts.roster) :
    AddPendingPlayer f ts name =
      (ts, some ("player " ++ name ++ " is already in the tournament")) := by
  unfold AddPendingPlayer
  rw [if_neg (fun hc => h1 (pendingDup_iff.mp hc)), if_pos (contains_iff_mem.mpr h2)]

theorem addPending_appends {f : Faults} {ts : TState} {name : String}
    (h1 : ¬∃ pp ∈ ts.pendingPlayers, pp.name = name ∧ pp.status = "pending")
    (h2 : name ∉ ts.roster) :
    AddPendingPlayer f ts name =
      ({ ts with pendingPlayers := ts.pendingPlayers ++ [⟨name, "pending"⟩] },
       f.savePendingErr) := by
  unfold AddPendingPlayer
  rw [if_neg (fun hc => h1 (pendingDup_iff.mp hc)),
    if_neg (fun hc => h2 (contains_iff_mem.mp hc))]

theorem accept_notFound_eq {f : Faults} {ts : TState} {name : String}
    (h : findPendingIdx (normName name) ts.pendingPlayers = none) :
    AcceptPlayer f ts name =
      (ts, some (acceptNotFoundMsg name
        ((GetPendingPlayers ts).map (fun pp => quoteName pp.name)))) := by
  unfold AcceptPlayer
  rw [h]

theorem accept_addFail_eq {f : Faults} {ts : TState} {name : String} {i : Nat}
    {actual : String} {e : String}
    (h : findPendingIdx (normName name) ts.pendingPlayers = some (i, actual))
    (he : f.engineAddErr = some e) :
    AcceptPlayer f ts name = (ts, some ("failed to add player to tournament: " ++ e)) := by
  unfold AcceptPlayer
  rw [h, he]

theorem accept_saveTournamentFail_eq {f : Faults} {ts : TState} {name : String} {i : Nat}
    {actual : String} {e : String}
    (h : findPendingIdx (normName name) ts.pendingPlayers = some (i, actual))
    (ha : f.engineAddErr = none) (he : f.saveTournamentErr = some e) :
    AcceptPlayer f ts name =
      (⟨ts.roster ++ [actual],
        setStatus (setStatus ts.pendingPlayers i "accepted") i "pending"⟩, some e) := by
  unfold AcceptPlayer
  rw [h, ha, he]

theorem accept_savePendingFail_eq {f : Faults} {ts : TState} {name : String} {i : Nat}
    {actual : String} {e : String}
    (h : findPendingIdx (normName name) ts.pendingPlayers = some (i, actual))
    (ha : f.engineAddErr = none) (ht : f.saveTournamentErr = none)
    (he : f.savePendingErr = some e) :
    AcceptPlayer f ts name =
      (⟨ts.roster ++ [actual],
        setStatus (setStatus ts.pendingPlayers i "accepted") i "pending"⟩, some e) := by
  unfold AcceptPlayer
  rw [h, ha, ht, he]

theorem accept_ok_eq {f : Faults} {ts : TState} {name : String} {i : Nat} {actual : String}
    (h : findPendingIdx (normName name) ts.pendingPlayers = some (i, actual))
    (ha : f.engineAddErr = none) (ht : f.saveTournamentErr = none)
    (hp : f.savePendingErr = none) :
    AcceptPlayer f ts name =
      (⟨ts.roster ++ [actual], setStatus ts.pendingPlayers i "accepted"⟩, none) := by
  unfold AcceptPlayer
  rw [h, ha, ht, hp]

theorem reject_found_eq {f : Faults} {ts : TState} {name : String}
    {ps2 : List PendingPlayer} (h : rejectLoop name ts.pendingPlayers = some ps2) :
    RejectPlayer f ts name = ({ ts with pendingPlayers := ps2 }, f.savePendingErr) := by
  unfold RejectPlayer
  rw [h]

theorem reject_notFound_eq {f : Faults} {ts : TState} {name : String}
    (h : rejectLoop name ts.pendingPlayers = none) :
    RejectPlayer f ts name = (ts, some ("player " ++ name ++ " not found in pending list")) := by
  unfold RejectPlayer
  rw [h]

/-! ### Claim theorems -/

/-- **C1** (accept success): whenever the queue contains a pending entry whose
normalised (lowercased, trimmed) name equals the normalised argument, a fully
successful `AcceptPlayer` resolves to such an entry (index `i`, stored name
`actual`), returns no error, appends the exact stored name to the engine
roster (so the roster contains it afterwards), flips exactly that entry's
status to "accepted" leaving every other entry untouched, and shrinks the
pending list reported by `GetPendingPlayers` by exactly one. -/
theorem accept_success_marks_entry_and_extends_roster {ts : TState} {name : String}
    (hmatch : ∃ pp ∈ ts.pendingPlayers,
      pp.status = "pending" ∧ normName pp.name = normName name) :
    ∃ i actual pp,
      findPendingIdx (normName name) ts.pendingPlayers = some (i, actual) ∧
      ts.pendingPlayers.get? i = some pp ∧ pp.name = actual ∧ pp.status = "pending" ∧
      (AcceptPlayer noFaults ts name).2 = none ∧
      (AcceptPlayer noFaults ts name).1.roster = ts.roster ++ [actual] ∧
      actual ∈ (AcceptPlayer noFaults ts name).1.roster ∧
      (AcceptPlayer noFaults ts name).1.pendingPlayers.get? i =
        some { pp with status := "accepted" } ∧
      (∀ j, j ≠ i → (AcceptPlayer noFaults ts name).1.pendingPlayers.get? j =
        ts.pendingPlayers.get? j) ∧
      (GetPendingPlayers (AcceptPlayer noFaults ts name).1).length + 1 =
        (GetPendingPlayers ts).length := by
  rcases hfind : findPendingIdx (normName name) ts.pendingPlayers with _ | ⟨i, actual⟩
  · exfalso
    obtain ⟨pp, hmem, hstat, hnorm⟩ := hmatch
    exact (findPendingIdx_none_iff.mp hfind) pp hmem ⟨hnorm, hstat⟩
  · obtain ⟨pp, hget, hname, hstat, hnorm⟩ := findPendingIdx_some hfind
    have hres := accept_ok_eq (f := noFaults) hfind rfl rfl rfl
    refine ⟨i, actual, pp, rfl, hget, hname, hstat, ?_, ?_, ?_, ?_, ?_, ?_⟩
    · rw [hres]
    · rw [hres]
    · rw [hres]
      exact List.mem_append_right _ (List.mem_singleton_self actual)
    · rw [hres]
      exact setStatus_get_self hget
    · intro j hj
      rw [hres]
      exact setStatus_get_other hj
    · rw [hres]
      unfold GetPendingPlayers
      rw [← List.countP_eq_length_filter, ← List.countP_eq_length_filter]
      exact countP_setStatus_of_pending hget hstat

/-- **C1 witness**: queue `[{name := "Bob", status := "pending"}]`, empty
roster, `AcceptPlayer` called with the case-mismatched name "bob". -/
theorem accept_success_marks_entry_and_extends_roster_check :
    ∃ i actual pp,
      findPendingIdx (normName "bob")
        (TState.mk [] [⟨"Bob", "pending"⟩]).pendingPlayers = some (i, actual) ∧
      (TState.mk [] [⟨"Bob", "pending"⟩]).pendingPlayers.get? i = some pp ∧
      pp.name = actual ∧ pp.status = "pending" ∧
      (AcceptPlayer noFaults (TState.mk [] [⟨"Bob", "pending"⟩]) "bob").2 = none ∧
      (AcceptPlayer noFaults (TState.mk [] [⟨"Bob", "pending"⟩]) "bob").1.roster =
        (TState.mk [] [⟨"Bob", "pending"⟩]).roster ++ [actual] ∧
      actual ∈ (AcceptPlayer noFaults (TState.mk [] [⟨"Bob", "pending"⟩]) "bob").1.roster ∧
      (AcceptPlayer noFaults (TState.mk [] [⟨"Bob", "pending"⟩]) "bob").1.pendingPlayers.get? i =
        some { pp with status := "accepted" } ∧
      (∀ j, j ≠ i →
        (AcceptPlayer noFaults (TState.mk [] [⟨"Bob", "pending"⟩]) "bob").1.pendingPlayers.get? j =
          (TState.mk [] [⟨"Bob", "pending"⟩]).pendingPlayers.get? j) ∧
      (GetPendingPlayers (AcceptPlayer noFaults (TState.mk [] [⟨"Bob", "pending"⟩]) "bob").1).length + 1 =
        (GetPendingPlayers (TState.mk [] [⟨"Bob", "pending"⟩])).length :=
  accept_success_marks_entry_and_extends_roster (by decide)

/-- **C2** (accept ordering): when a pending entry matches but the engine's
add step fails, `AcceptPlayer` returns exactly the wrapped engine error and
the whole state — queue statuses and roster alike — is the untouched input
state. -/
theorem accept_engine_error_preserves_state {f : Faults} {ts : TState} {name : String}
    {e : String} (he : f.engineAddErr = some e)
    (hmatch : ∃ pp ∈ ts.pendingPlayers,
      pp.status = "pending" ∧ normName pp.name = normName name) :
    AcceptPlayer f ts name = (ts, some ("failed to add player to tournament: " ++ e)) ∧
    (AcceptPlayer f ts name).1.pendingPlayers = ts.pendingPlayers ∧
    (AcceptPlayer f ts name).1.roster = ts.roster := by
  rcases hfind : findPendingIdx (normName name) ts.pendingPlayers with _ | ⟨i, actual⟩
  · exfalso
    obtain ⟨pp, hmem, hstat, hnorm⟩ := hmatch
    exact (findPendingIdx_none_iff.mp hfind) pp hmem ⟨hnorm, hstat⟩
  · have hres := accept_addFail_eq hfind he
    exact ⟨hres, by rw [hres], by rw [hres]⟩

/-- **C2 witness**: engine add fails with "tournament already started" while
"Carl" is pending. -/
theorem accept_engine_error_preserves_state_check :
    AcceptPlayer ⟨some "tournament already started", none, none⟩
        (TState.mk [] [⟨"Carl", "pending"⟩]) "Carl" =
      (TState.mk [] [⟨"Carl", "pending"⟩],
        some ("failed to add player to tournament: " ++ "tournament already started")) ∧
    (AcceptPlayer ⟨some "tournament already started", none, none⟩
        (TState.mk [] [⟨"Carl", "pending"⟩]) "Carl").1.pendingPlayers =
      (TState.mk [] [⟨"Carl", "pending"⟩]).pendingPlayers ∧
    (AcceptPlayer ⟨some "tournament already started", none, none⟩
        (TState.mk [] [⟨"Carl", "pending"⟩]) "Carl").1.roster =
      (TState.mk [] [⟨"Carl", "pending"⟩]).roster :=
  accept_engine_error_preserves_state rfl (by decide)

/-- **C3** (accept persistence rollback): once the engine add has succeeded,
a failure of the engine-state save, or of the queue-state save, reverts the
matched entry's status to "pending" — the final queue equals the input queue
exactly — returns the persistence error, and leaves the in-memory roster
mutation in place (the roster still ends with the stored name). -/
theorem accept_save_failure_reverts_status_keeps_roster {f : Faults} {ts : TState}
    {name : String} {i : Nat} {actual : String}
    (hfind : findPendingIdx (normName name) ts.pendingPlayers = some (i, actual))
    (ha : f.engineAddErr = none) :
    (∀ e, f.saveTournamentErr = some e →
      AcceptPlayer f ts name = (⟨ts.roster ++ [actual], ts.pendingPlayers⟩, some e)) ∧
    (f.saveTournamentErr = none → ∀ e, f.savePendingErr = some e →
      AcceptPlayer f ts name = (⟨ts.roster ++ [actual], ts.pendingPlayers⟩, some e)) := by
  obtain ⟨pp, hget, hname, hstat, hnorm⟩ := findPendingIdx_some hfind
  have hrev : setStatus (setStatus ts.pendingPlayers i "accepted") i "pending" =
      ts.pendingPlayers := by
    rw [setStatus_setStatus]
    exact setStatus_eq_self hget hstat
  constructor
  · intro e he
    rw [accept_saveTournamentFail_eq hfind ha he, hrev]
  · intro ht e he
    rw [accept_savePendingFail_eq hfind ha ht he, hrev]

/-- **C3 witness**: both save-failure paths exercised on the pending entry
"Dana" with an empty roster. -/
theorem accept_save_failure_reverts_status_keeps_roster_check :
    AcceptPlayer ⟨none, some "disk full", none⟩ (TState.mk [] [⟨"Dana", "pending"⟩]) "Dana" =
      (⟨["Dana"], [⟨"Dana", "pending"⟩]⟩, some "disk full") ∧
    AcceptPlayer ⟨none, none, some "disk full"⟩ (TState.mk [] [⟨"Dana", "pending"⟩]) "Dana" =
      (⟨["Dana"], [⟨"Dana", "pending"⟩]⟩, some "disk full") :=
  ⟨(@accept_save_failure_reverts_status_keeps_roster ⟨none, some "disk full", none⟩
      (TState.mk [] [⟨"Dana", "pending"⟩]) "Dana" 0 "Dana" (by decide) rfl).1 "disk full" rfl,
   (@accept_save_failure_reverts_status_keeps_roster ⟨none, none, some "disk full"⟩
      (TState.mk [] [⟨"Dana", "pending"⟩]) "Dana" 0 "Dana" (by decide) rfl).2 rfl "disk full" rfl⟩

/-- **C4** (accept not-found): when no pending entry matches the normalised
argument, `AcceptPlayer` fails with the not-found error enumerating the
quoted names of all currently pending entries, and returns the input state
unchanged (queue and roster alike), for every fault pattern. -/
theorem accept_notFound_enumerates_and_preserves {f : Faults} {ts : TState} {name : String}
    (hnone : ∀ pp ∈ ts.pendingPlayers,
      ¬(normName pp.name = normName name ∧ pp.status = "pending")) :
    AcceptPlayer f ts name =
      (ts, some (acceptNotFoundMsg name
        ((GetPendingPlayers ts).map (fun pp => quoteName pp.name)))) :=
  accept_notFound_eq (findPendingIdx_none_iff.mpr hnone)

/-- **C4 witness**: accepting "NoSuchPlayer" while only "Alice" is pending
yields the enumerating error and an unchanged state. -/
theorem accept_notFound_enumerates_and_preserves_check :
    AcceptPlayer noFaults (TState.mk ["Zoe"] [⟨"Alice", "pending"⟩, ⟨"Ben", "rejected"⟩])
        "NoSuchPlayer" =
      (TState.mk ["Zoe"] [⟨"Alice", "pending"⟩, ⟨"Ben", "rejected"⟩],
        some (acceptNotFoundMsg "NoSuchPlayer"
          ((GetPendingPlayers
            (TState.mk ["Zoe"] [⟨"Alice", "pending"⟩, ⟨"Ben", "rejected"⟩])).map
              (fun pp => quoteName pp.name)))) :=
  accept_notFound_enumerates_and_preserves (by decide)

/-- **C5** (submit cases): `AddPendingPlayer` fails with the already-pending
error exactly when an entry with the same exact name is already pending;
otherwise it fails with the already-active error when the name is in the
roster; otherwise it appends exactly one new pending entry at the end of the
queue (surfacing any queue-save fault). In particular, submitting the same
name twice while the first is still pending makes the second call fail with
the already-pending error and grows the queue by exactly one entry. -/
theorem submit_duplicate_active_and_append_cases (f : Faults) (ts : TState) (name : String) :
    ((∃ pp ∈ ts.pendingPlayers, pp.name = name ∧ pp.status = "pending") →
      AddPendingPlayer f ts name = (ts, some ("player " ++ name ++ " is already pending"))) ∧
    ((¬∃ pp ∈ ts.pendingPlayers, pp.name = name ∧ pp.status = "pending") →
      name ∈ ts.roster →
      AddPendingPlayer f ts name =
        (ts, some ("player " ++ name ++ " is already in the tournament"))) ∧
    ((¬∃ pp ∈ ts.pendingPlayers, pp.name = name ∧ pp.status = "pending") →
      name ∉ ts.roster →
      AddPendingPlayer f ts name =
        ({ ts with pendingPlayers := ts.pendingPlayers ++ [⟨name, "pending"⟩] },
          f.savePendingErr)) ∧
    ((¬∃ pp ∈ ts.pendingPlayers, pp.name = name ∧ pp.status = "pending") →
      name ∉ ts.roster →
      AddPendingPlayer noFaults (AddPendingPlayer noFaults ts name).1 name =
        ((AddPendingPlayer noFaults ts name).1,
          some ("player " ++ name ++ " is already pending")) ∧
      (AddPendingPlayer noFaults ts name).1.pendingPlayers.length =
        ts.pendingPlayers.length + 1) := by
  refine ⟨fun h => addPending_already h, fun h1 h2 => addPending_active h1 h2,
    fun h1 h2 => addPending_appends h1 h2, fun h1 h2 => ?_⟩
  have h3 := addPending_appends (f := noFaults) h1 h2
  constructor
  · apply addPending_already
    rw [h3]
    exact ⟨⟨name, "pending"⟩, List.mem_append_right _ (List.mem_singleton_self _), rfl, rfl⟩
  · rw [h3]
    simp

/-- **C5 witness**: submitting "Alice" twice from the empty state: the first
call appends one pending entry, the second fails with the already-pending
error. -/
theorem submit_duplicate_active_and_append_cases_check :
    (AddPendingPlayer noFaults (TState.mk [] []) "Alice" =
      ({ TState.mk [] [] with
          pendingPlayers := (TState.mk [] []).pendingPlayers ++ [⟨"Alice", "pending"⟩] },
        noFaults.savePendingErr)) ∧
    (AddPendingPlayer noFaults (AddPendingPlayer noFaults (TState.mk [] []) "Alice").1 "Alice" =
      ((AddPendingPlayer noFaults (TState.mk [] []) "Alice").1,
        some ("player " ++ "Alice" ++ " is already pending")) ∧
    (AddPendingPlayer noFaults (TState.mk [] []) "Alice").1.pendingPlayers.length =
      (TState.mk [] []).pendingPlayers.length + 1) :=
  ⟨(submit_duplicate_active_and_append_cases noFaults (TState.mk [] []) "Alice").2.2.1
      (by decide) (by decide),
   (submit_duplicate_active_and_append_cases noFaults (TState.mk [] []) "Alice").2.2.2
      (by decide) (by decide)⟩

/-- **C6** (reject exact match, frame, finality): when some pending entry has
exactly the argument name, `RejectPlayer` flips the first such entry (some
index `i`) to "rejected", leaves every other queue entry and the roster
untouched, and returns the queue-save outcome; when no pending entry has
exactly that name it fails with the not-found error and changes nothing;
and when the pending match is unique, rejecting the same name a second time
fails with the not-found error. -/
theorem reject_flips_single_entry_and_is_final (f : Faults) (ts : TState) (name : String) :
    ((∃ pp ∈ ts.pendingPlayers, pp.name = name ∧ pp.status = "pending") →
      ∃ i pp, ts.pendingPlayers.get? i = some pp ∧ pp.name = name ∧ pp.status = "pending" ∧
        RejectPlayer f ts name =
          ({ ts with pendingPlayers := setStatus ts.pendingPlayers i "rejected" },
            f.savePendingErr) ∧
        (RejectPlayer f ts name).1.roster = ts.roster ∧
        (RejectPlayer f ts name).1.pendingPlayers.get? i =
          some { pp with status := "rejected" } ∧
        (∀ j, j ≠ i → (RejectPlayer f ts name).1.pendingPlayers.get? j =
          ts.pendingPlayers.get? j)) ∧
    ((¬∃ pp ∈ ts.pendingPlayers, pp.name = name ∧ pp.status = "pending") →
      RejectPlayer f ts name =
        (ts, some ("player " ++ name ++ " not found in pending list"))) ∧
    ((∃ pp ∈ ts.pendingPlayers, pp.name = name ∧ pp.status = "pending") →
      (∀ i j p q, ts.pendingPlayers.get? i = some p → ts.pendingPlayers.get? j = some q →
        p.name = name → p.status = "pending" → q.name = name → q.status = "pending" →
        i = j) →
      RejectPlayer noFaults (RejectPlayer noFaults ts name).1 name =
        ((RejectPlayer noFaults ts name).1,
          some ("player " ++ name ++ " not found in pending list"))) := by
  refine ⟨fun hex => ?_, fun hnone => ?_, fun hex huniq => ?_⟩
  · rcases hr : rejectLoop name ts.pendingPlayers with _ | ps2
    · exfalso
      obtain ⟨pp, hmem, hn, hs⟩ := hex
      exact (rejectLoop_none_iff.mp hr) pp hmem ⟨hn, hs⟩
    · obtain ⟨i, pp, hget, hn, hs, rfl⟩ := rejectLoop_some hr
      have hres := reject_found_eq (f := f) hr
      refine ⟨i, pp, hget, hn, hs, hres, by rw [hres], ?_, ?_⟩
      · rw [hres]
        exact setStatus_get_self hget
      · intro j hj
        rw [hres]
        exact setStatus_get_other hj
  · apply reject_notFound_eq
    rw [rejectLoop_none_iff]
    exact fun pp hm hc => hnone ⟨pp, hm, hc⟩
  · rcases hr : rejectLoop name ts.pendingPlayers with _ | ps2
    · exfalso
      obtain ⟨pp, hmem, hn, hs⟩ := hex
      exact (rejectLoop_none_iff.mp hr) pp hmem ⟨hn, hs⟩
    · obtain ⟨i, pp, hget, hn, hs, rfl⟩ := rejectLoop_some hr
      have hres := reject_found_eq (f := noFaults) hr
      rw [hres]
      apply reject_notFound_eq
      rw [rejectLoop_none_iff]
      intro q hq hc
      obtain ⟨j, hj⟩ := List.get?_of_mem hq
      by_cases hij : j = i
      · subst hij
        rw [setStatus_get_self hget] at hj
        have : q.status = "rejected" := by
          cases hj
          rfl
        rw [this] at hc
        exact absurd hc.2 (by decide)
      · rw [setStatus_get_other hij] at hj
        exact hij (huniq j i q pp hj hget hc.1 hc.2 hn hs)

/-- **C6 witness**: rejecting the unique pending entry "Carl" (roster
["Zoe"]) twice: the first call exists-resolves, the second fails not-found. -/
theorem reject_flips_single_entry_and_is_final_check :
    (∃ i pp, (TState.mk ["Zoe"] [⟨"Carl", "pending"⟩]).pendingPlayers.get? i = some pp ∧
      pp.name = "Carl" ∧ pp.status = "pending" ∧
      RejectPlayer noFaults (TState.mk ["Zoe"] [⟨"Carl", "pending"⟩]) "Carl" =
        ({ TState.mk ["Zoe"] [⟨"Carl", "pending"⟩] with
            pendingPlayers :=
              setStatus (TState.mk ["Zoe"] [⟨"Carl", "pending"⟩]).pendingPlayers i "rejected" },
          noFaults.savePendingErr) ∧
      (RejectPlayer noFaults (TState.mk ["Zoe"] [⟨"Carl", "pending"⟩]) "Carl").1.roster =
        (TState.mk ["Zoe"] [⟨"Carl", "pending"⟩]).roster ∧
      (RejectPlayer noFaults
          (TState.mk ["Zoe"] [⟨"Carl", "pending"⟩]) "Carl").1.pendingPlayers.get? i =
        some { pp with status := "rejected" } ∧
      (∀ j, j ≠ i →
        (RejectPlayer noFaults
            (TState.mk ["Zoe"] [⟨"Carl", "pending"⟩]) "Carl").1.pendingPlayers.get? j =
          (TState.mk ["Zoe"] [⟨"Carl", "pending"⟩]).pendingPlayers.get? j)) ∧
    (RejectPlayer noFaults
        (RejectPlayer noFaults (TState.mk ["Zoe"] [⟨"Carl", "pending"⟩]) "Carl").1 "Carl" =
      ((RejectPlayer noFaults (TState.mk ["Zoe"] [⟨"Carl", "pending"⟩]) "Carl").1,
        some ("player " ++ "Carl" ++ " not found in pending list"))) :=
  ⟨(reject_flips_single_entry_and_is_final noFaults
      (TState.mk ["Zoe"] [⟨"Carl", "pending"⟩]) "Carl").1 (by decide),
   (reject_flips_single_entry_and_is_final noFaults
      (TState.mk ["Zoe"] [⟨"Carl", "pending"⟩]) "Carl").2.2 (by decide)
      (by
        intro i j p q hi hj _ _ _ _
        match i, j with
        | 0, 0 => rfl
        | 0, Nat.succ j => simp at hj
        | Nat.succ i, _ => simp at hi)⟩

/-- **C7** (persistence asymmetry of the generic engine transaction and
submit): `UpdateTournament` returns the mutator's error with the state
untouched when the mutator fails — the injected save fault never surfaces,
so persistence is not attempted; when the mutator succeeds but the engine
save fails, the error is surfaced while the in-memory roster mutation stays
applied; and a submit whose queue save fails keeps the appended pending
entry in memory and returns the save error. -/
theorem updateTournament_and_submit_keep_mutation_on_save_failure
    (f : Faults) (ts : TState) :
    (∀ fn e, fn ts.roster = Except.error e → UpdateTournament f ts fn = (ts, some e)) ∧
    (∀ fn r, fn ts.roster = Except.ok r →
      UpdateTournament f ts fn = ({ ts with roster := r }, f.saveTournamentErr)) ∧
    (∀ name e, (¬∃ pp ∈ ts.pendingPlayers, pp.name = name ∧ pp.status = "pending") →
      name ∉ ts.roster → f.savePendingErr = some e →
      AddPendingPlayer f ts name =
        ({ ts with pendingPlayers := ts.pendingPlayers ++ [⟨name, "pending"⟩] },
          some e)) := by
  refine ⟨fun fn e h => ?_, fun fn r h => ?_, fun name e h1 h2 he => ?_⟩
  · unfold UpdateTournament
    rw [h]
  · unfold UpdateTournament
    rw [h]
  · rw [addPending_appends h1 h2, he]

/-- **C7 witness**: a failing mutator with a save fault injected (the
mutator's error wins), a succeeding mutator whose save fails (mutation
kept), and a submit whose queue save fails (append kept). -/
theorem updateTournament_and_submit_keep_mutation_on_save_failure_check :
    (UpdateTournament ⟨none, some "disk full", none⟩ (TState.mk ["Ann"] [])
        (fun _ => Except.error "cannot pair") =
      (TState.mk ["Ann"] [], some "cannot pair")) ∧
    (UpdateTournament ⟨none, some "disk full", none⟩ (TState.mk ["Ann"] [])
        (fun r => Except.ok (r ++ ["Ben"])) =
      ({ TState.mk ["Ann"] [] with roster := ["Ann"] ++ ["Ben"] }, some "disk full")) ∧
    (AddPendingPlayer ⟨none, none, some "disk full"⟩ (TState.mk ["Ann"] []) "Ben" =
      ({ TState.mk ["Ann"] [] with
          pendingPlayers := (TState.mk ["Ann"] []).pendingPlayers ++ [⟨"Ben", "pending"⟩] },
        some "disk full")) :=
  ⟨(updateTournament_and_submit_keep_mutation_on_save_failure
      ⟨none, some "disk full", none⟩ (TState.mk ["Ann"] [])).1
      (fun _ => Except.error "cannot pair") "cannot pair" rfl,
   (updateTournament_and_submit_keep_mutation_on_save_failure
      ⟨none, some "disk full", none⟩ (TState.mk ["Ann"] [])).2.1
      (fun r => Except.ok (r ++ ["Ben"])) (["Ann"] ++ ["Ben"]) rfl,
   (updateTournament_and_submit_keep_mutation_on_save_failure
      ⟨none, none, some "disk full"⟩ (TState.mk ["Ann"] [])).2.2
      "Ben" "disk full" (by decide) (by decide) rfl⟩

/-- **C8 counterexample**: the all-whitespace name " " is blank (it trims to
the empty character sequence), yet core submission on the empty state
succeeds (no error) and appends a pending entry for it — refuting the claim
that every blank input fails at the core submission operation. -/
theorem blank_submit_succeeds_at_core :
    trimChars (" ".data) = [] ∧
    (AddPendingPlayer noFaults (TState.mk [] []) " ").2 = none ∧
    (AddPendingPlayer noFaults (TState.mk [] []) " ").1.pendingPlayers =
      [⟨" ", "pending"⟩] := by
  decide

/-- **C8 (amended)**: the core submission operation performs no blank-name
validation — a blank (all-whitespace or empty) name that is not already
pending and not in the roster is appended as a pending entry just like any
other name; the empty-name rejection lives only in the HTTP registration
handler, which rejects exactly the empty string without trimming and
otherwise delegates to the core operation unchanged. -/
theorem blank_name_validation_only_in_handler (f : Faults) (ts : TState) (name : String) :
    (trimChars name.data = [] →
      (¬∃ pp ∈ ts.pendingPlayers, pp.name = name ∧ pp.status = "pending") →
      name ∉ ts.roster →
      AddPendingPlayer f ts name =
        ({ ts with pendingPlayers := ts.pendingPlayers ++ [⟨name, "pending"⟩] },
          f.savePendingErr)) ∧
    (RegisterPost f ts "" = (ts, some "Name is required")) ∧
    (name ≠ "" → RegisterPost f ts name = AddPendingPlayer f ts name) := by
  refine ⟨fun _ h1 h2 => addPending_appends h1 h2, rfl, fun h => ?_⟩
  unfold RegisterPost
  rw [if_neg (fun hc => h (by simpa using hc))]

/-- **C8 witness**: the whitespace-only name " " passes the handler's
empty-string guard and is appended by the core as a pending entry. -/
theorem blank_name_validation_only_in_handler_check :
    (AddPendingPlayer noFaults (TState.mk [] []) " " =
      ({ TState.mk [] [] with
          pendingPlayers := (TState.mk [] []).pendingPlayers ++ [⟨" ", "pending"⟩] },
        noFaults.savePendingErr)) ∧
    (RegisterPost noFaults (TState.mk [] []) "" = (TState.mk [] [], some "Name is required")) ∧
    (RegisterPost noFaults (TState.mk [] []) " " =
      AddPendingPlayer noFaults (TState.mk [] []) " ") :=
  ⟨(blank_name_validation_only_in_handler noFaults (TState.mk [] []) " ").1
      (by decide) (by decide) (by decide),
   (blank_name_validation_only_in_handler noFaults (TState.mk [] []) " ").2.1,
   (blank_name_validation_only_in_handler noFaults (TState.mk [] []) " ").2.2 (by decide)⟩

/-- **C9** (listPending): `GetPendingPlayers` returns a sublist of the queue
(so insertion order is preserved), every returned entry has status
"pending", every pending entry of the queue is returned, and the count of
returned entries is exactly the number of pending entries — so accepted and
rejected entries are omitted and nothing else is dropped. -/
theorem listPending_is_ordered_pending_filter (ts : TState) :
    (GetPendingPlayers ts).Sublist ts.pendingPlayers ∧
    (∀ pp ∈ GetPendingPlayers ts, pp.status = "pending") ∧
    (∀ pp ∈ ts.pendingPlayers, pp.status = "pending" → pp ∈ GetPendingPlayers ts) ∧
    (GetPendingPlayers ts).length =
      ts.pendingPlayers.countP (fun pp => pp.status == "pending") := by
  unfold GetPendingPlayers
  refine ⟨List.filter_sublist _, ?_, ?_, ?_⟩
  · intro pp hm
    have := (List.mem_filter.mp hm).2
    simpa using this
  · intro pp hm hs
    exact List.mem_filter.mpr ⟨hm, by simpa using hs⟩
  · rw [List.countP_eq_length_filter]

/-- **C9 witness**: a queue holding one pending, one accepted and one
rejected entry lists exactly the pending one. -/
theorem listPending_is_ordered_pending_filter_check :
    (GetPendingPlayers (TState.mk []
        [⟨"A", "pending"⟩, ⟨"B", "accepted"⟩, ⟨"C", "rejected"⟩])).Sublist
      (TState.mk [] [⟨"A", "pending"⟩, ⟨"B", "accepted"⟩, ⟨"C", "rejected"⟩]).pendingPlayers ∧
    (GetPendingPlayers (TState.mk []
        [⟨"A", "pending"⟩, ⟨"B", "accepted"⟩, ⟨"C", "rejected"⟩])).length =
      (TState.mk [] [⟨"A", "pending"⟩, ⟨"B", "accepted"⟩,
        ⟨"C", "rejected"⟩]).pendingPlayers.countP (fun pp => pp.status == "pending") :=
  ⟨(listPending_is_ordered_pending_filter (TState.mk []
      [⟨"A", "pending"⟩, ⟨"B", "accepted"⟩, ⟨"C", "rejected"⟩])).1,
   (listPending_is_ordered_pending_filter (TState.mk []
      [⟨"A", "pending"⟩, ⟨"B", "accepted"⟩, ⟨"C", "rejected"⟩])).2.2.2⟩

/-- **C10** (implicit asymmetry of submit and accept lookups): two
submissions whose names differ as strings but agree after trimming and
lowercasing both succeed — leaving two simultaneously pending entries —
because submit's duplicate check is exact; and a subsequent accept of the
second spelling resolves, via the normalised first-match search, to the
earliest pending entry whose normalised name matches, i.e. the first
submission, whose exact stored name is what joins the roster. -/
theorem submit_exact_accept_normalized_resolves_earliest
    {ts : TState} {name1 name2 : String}
    (hne : name1 ≠ name2)
    (hnorm : normName name1 = normName name2)
    (hfresh : ∀ pp ∈ ts.pendingPlayers,
      ¬(normName pp.name = normName name1 ∧ pp.status = "pending"))
    (hr1 : name1 ∉ ts.roster) (hr2 : name2 ∉ ts.roster) :
    (AddPendingPlayer noFaults ts name1).2 = none ∧
    (AddPendingPlayer noFaults (AddPendingPlayer noFaults ts name1).1 name2).2 = none ∧
    (AddPendingPlayer noFaults (AddPendingPlayer noFaults ts name1).1 name2).1.pendingPlayers =
      ts.pendingPlayers ++ [⟨name1, "pending"⟩, ⟨name2, "pending"⟩] ∧
    findPendingIdx (normName name2)
        (ts.pendingPlayers ++ [⟨name1, "pending"⟩, ⟨name2, "pending"⟩]) =
      some (ts.pendingPlayers.length, name1) ∧
    (AcceptPlayer noFaults
        (AddPendingPlayer noFaults (AddPendingPlayer noFaults ts name1).1 name2).1
        name2).1.roster =
      ts.roster ++ [name1] := by
  have hdup1 : ¬∃ pp ∈ ts.pendingPlayers, pp.name = name1 ∧ pp.status = "pending" := by
    rintro ⟨pp, hm, hn, hs⟩
    exact hfresh pp hm ⟨by rw [hn], hs⟩
  have h1 := addPending_appends (f := noFaults) hdup1 hr1
  have hq1 : (AddPendingPlayer noFaults ts name1).1 =
      { ts with pendingPlayers := ts.pendingPlayers ++ [⟨name1, "pending"⟩] } := by
    rw [h1]
  have hdup2 : ¬∃ pp ∈ (AddPendingPlayer noFaults ts name1).1.pendingPlayers,
      pp.name = name2 ∧ pp.status = "pending" := by
    rw [hq1]
    rintro ⟨pp, hm, hn, hs⟩
    rcases List.mem_append.mp hm with hm1 | hm2
    · exact hfresh pp hm1 ⟨by rw [hn, ← hnorm], hs⟩
    · have : pp = ⟨name1, "pending"⟩ := by simpa using hm2
      rw [this] at hn
      exact hne hn
  have hr2b : name2 ∉ (AddPendingPlayer noFaults ts name1).1.roster := by
    rw [hq1]
    exact hr2
  have h2 := addPending_appends (f := noFaults) hdup2 hr2b
  have hq2 : (AddPendingPlayer noFaults (AddPendingPlayer noFaults ts name1).1 name2).1 =
      { ts with pendingPlayers :=
          ts.pendingPlayers ++ [⟨name1, "pending"⟩, ⟨name2, "pending"⟩] } := by
    rw [h2, hq1]
    simp
  have hfind : findPendingIdx (normName name2)
      (ts.pendingPlayers ++ [⟨name1, "pending"⟩, ⟨name2, "pending"⟩]) =
      some (ts.pendingPlayers.length, name1) := by
    have hnone : findPendingIdx (normName name2) ts.pendingPlayers = none := by
      rw [findPendingIdx_none_iff]
      intro pp hm hc
      exact hfresh pp hm ⟨by rw [hc.1, ← hnorm], hc.2⟩
    rw [findPendingIdx_append_of_none hnone]
    rw [findPendingIdx_cons_pos (by simp [hnorm])]
    simp
  refine ⟨by rw [h1]; rfl, by rw [h2]; rfl, by rw [hq2], hfind, ?_⟩
  have hfind2 : findPendingIdx (normName name2)
      (AddPendingPlayer noFaults (AddPendingPlayer noFaults ts name1).1 name2).1.pendingPlayers =
      some (ts.pendingPlayers.length, name1) := by
    rw [hq2]
    exact hfind
  have hacc := accept_ok_eq (f := noFaults) hfind2 rfl rfl rfl
  rw [hacc, hq2]

/-- **C10 witness**: submitting "Bob" and then "bob" from the empty state
leaves both pending, and accepting "bob" adds the stored name "Bob" of the
first submission to the roster. -/
theorem submit_exact_accept_normalized_resolves_earliest_check :
    (AddPendingPlayer noFaults (TState.mk [] []) "Bob").2 = none ∧
    (AddPendingPlayer noFaults
        (AddPendingPlayer noFaults (TState.mk [] []) "Bob").1 "bob").2 = none ∧
    (AddPendingPlayer noFaults
        (AddPendingPlayer noFaults (TState.mk [] []) "Bob").1 "bob").1.pendingPlayers =
      (TState.mk [] []).pendingPlayers ++ [⟨"Bob", "pending"⟩, ⟨"bob", "pending"⟩] ∧
    findPendingIdx (normName "bob")
        ((TState.mk [] []).pendingPlayers ++ [⟨"Bob", "pending"⟩, ⟨"bob", "pending"⟩]) =
      some ((TState.mk [] []).pendingPlayers.length, "Bob") ∧
    (AcceptPlayer noFaults
        (AddPendingPlayer noFaults
          (AddPendingPlayer noFaults (TState.mk [] []) "Bob").1 "bob").1 "bob").1.roster =
      (TState.mk [] []).roster ++ ["Bob"] :=
  submit_exact_accept_normalized_resolves_earliest
    (by decide) (by decide) (by decide) (by decide) (by decide)

end OpenSwiss
